import Mathlib

/-!
Verification development for the upper-body skeleton reconstruction pipeline
(`calc_body.py` and `calculate_and_join_skeleton_data.py`).

The numeric code (numpy over float64) is embedded shallowly over the exact
reals: 3D points are `Vec3` with real components, quaternions are `QuatR`.
The temporal resampler (`interpolate_head_data`) keeps its timestamps and
positions over `ℚ` (the cubic-spline arithmetic is rational), while the
SLERP orientation path uses real trigonometry.
-/

/-! ## Shared 3D geometry

Both source files contain identical copies of `quaternion_to_rotation_matrix`,
`get_down_vector`, `estimate_neck_position`, `estimate_spine_positions`,
`estimate_shoulder_positions` and the `AnthropometricModel` class; each is
embedded once here. -/

/-- A 3D position/vector with real components (numpy float array of length 3). -/
@[ext]
structure Vec3 where
  x : ℝ
  y : ℝ
  z : ℝ

def Vec3.add (a b : Vec3) : Vec3 := ⟨a.x + b.x, a.y + b.y, a.z + b.z⟩

def Vec3.sub (a b : Vec3) : Vec3 := ⟨a.x - b.x, a.y - b.y, a.z - b.z⟩

def Vec3.neg (a : Vec3) : Vec3 := ⟨-a.x, -a.y, -a.z⟩

def Vec3.smul (c : ℝ) (a : Vec3) : Vec3 := ⟨c * a.x, c * a.y, c * a.z⟩

instance : Add Vec3 := ⟨Vec3.add⟩

instance : Sub Vec3 := ⟨Vec3.sub⟩

instance : Neg Vec3 := ⟨Vec3.neg⟩

instance : SMul ℝ Vec3 := ⟨Vec3.smul⟩

instance : Zero Vec3 := ⟨⟨0, 0, 0⟩⟩

/-- Euclidean dot product (`np.dot` on 3-vectors). -/
def dot3 (a b : Vec3) : ℝ := a.x * b.x + a.y * b.y + a.z * b.z

/-- Squared Euclidean norm. -/
def normSq3 (a : Vec3) : ℝ := a.x ^ 2 + a.y ^ 2 + a.z ^ 2

/-- Euclidean norm (`np.linalg.norm` on 3-vectors). -/
noncomputable def norm3 (a : Vec3) : ℝ := Real.sqrt (normSq3 a)

/-- Euclidean distance between two 3D points. -/
noncomputable def dist3 (a b : Vec3) : ℝ := norm3 (a - b)

/-- Division of a vector by its own norm (`v / np.linalg.norm(v)`). -/
noncomputable def normalize3 (a : Vec3) : Vec3 := (1 / norm3 a) • a

/-- A quaternion in scipy's scalar-last layout `[qx, qy, qz, qw]`. -/
@[ext]
structure QuatR where
  x : ℝ
  y : ℝ
  z : ℝ
  w : ℝ

/-- Squared 4D norm of a quaternion. -/
def normSq4 (q : QuatR) : ℝ := q.x ^ 2 + q.y ^ 2 + q.z ^ 2 + q.w ^ 2

/-- The columns of a 3x3 rotation matrix. -/
structure Mat3 where
  c0 : Vec3
  c1 : Vec3
  c2 : Vec3

/-- `quaternion_to_rotation_matrix(q)`: convert quaternion `[qx, qy, qz, qw]`
to a rotation matrix, stored here by columns (the sources only ever read
columns 0 and 1). -/
def quaternion_to_rotation_matrix (q : QuatR) : Mat3 :=
  { c0 := ⟨1 - 2 * (q.y ^ 2 + q.z ^ 2), 2 * (q.x * q.y + q.z * q.w),
           2 * (q.x * q.z - q.y * q.w)⟩
    c1 := ⟨2 * (q.x * q.y - q.z * q.w), 1 - 2 * (q.x ^ 2 + q.z ^ 2),
           2 * (q.y * q.z + q.x * q.w)⟩
    c2 := ⟨2 * (q.x * q.z + q.y * q.w), 2 * (q.y * q.z - q.x * q.w),
           1 - 2 * (q.x ^ 2 + q.y ^ 2)⟩ }

/-- `get_down_vector(q)`: the normalized negated second column of the rotation
matrix. -/
noncomputable def get_down_vector (q : QuatR) : Vec3 :=
  normalize3 (-(quaternion_to_rotation_matrix q).c1)

/-- The `AnthropometricModel` value: body segment lengths derived from height.
Identical classes appear in both source files. -/
structure AnthropometricModel where
  height : ℝ
  neck_length : ℝ
  shoulder_width : ℝ
  upper_arm_length : ℝ
  forearm_length : ℝ
  spine_length : ℝ
  upper_spine_length : ℝ
  mid_spine_length : ℝ
  lower_spine_length : ℝ

/-- `AnthropometricModel.__init__(height_m)`. -/
def mkAnthropometricModel (height_m : ℝ) : AnthropometricModel :=
  { height := height_m
    neck_length := 0.05 * height_m
    shoulder_width := 0.25 * height_m
    upper_arm_length := 0.18 * height_m
    forearm_length := 0.16 * height_m
    spine_length := 0.30 * height_m
    upper_spine_length := 0.10 * height_m
    mid_spine_length := 0.10 * height_m
    lower_spine_length := 0.10 * height_m }

/-- `estimate_neck_position(head_pos, head_quat, body_model)`. -/
noncomputable def estimate_neck_position (head_pos : Vec3) (head_quat : QuatR)
    (body_model : AnthropometricModel) : Vec3 :=
  head_pos + body_model.neck_length • get_down_vector head_quat

/-- `estimate_spine_positions(neck_pos, head_quat, body_model)`: returns
`(upper_spine, mid_spine, lower_spine)`. -/
noncomputable def estimate_spine_positions (neck_pos : Vec3) (head_quat : QuatR)
    (body_model : AnthropometricModel) : Vec3 × Vec3 × Vec3 :=
  let down_vector := get_down_vector head_quat
  let upper_spine := neck_pos + body_model.upper_spine_length • down_vector
  let mid_spine := upper_spine + body_model.mid_spine_length • down_vector
  let lower_spine := mid_spine + body_model.lower_spine_length • down_vector
  (upper_spine, mid_spine, lower_spine)

/-- `estimate_shoulder_positions(upper_spine_pos, head_quat, body_model)`:
returns `(left_shoulder, right_shoulder)`. -/
noncomputable def estimate_shoulder_positions (upper_spine_pos : Vec3)
    (head_quat : QuatR) (body_model : AnthropometricModel) : Vec3 × Vec3 :=
  let right_vector := normalize3 (quaternion_to_rotation_matrix head_quat).c0
  (upper_spine_pos - (body_model.shoulder_width / 2) • right_vector,
   upper_spine_pos + (body_model.shoulder_width / 2) • right_vector)

/-- `estimate_elbow_position(shoulder_pos, forearm_pos, wrist_pos,
upper_arm_length)` from `calc_body.py`: returns `None` when either hand
landmark is missing, and falls back to a fixed vertical offset when the
shoulder-to-forearm distance is below `1e-6`. -/
noncomputable def estimate_elbow_position (shoulder_pos : Vec3)
    (forearm_pos wrist_pos : Option Vec3) (upper_arm_length : ℝ) : Option Vec3 :=
  match forearm_pos, wrist_pos with
  | some forearm, some _ =>
    let shoulder_to_forearm := forearm - shoulder_pos
    let distance_to_forearm := norm3 shoulder_to_forearm
    if distance_to_forearm < 1e-6 then
      some (shoulder_pos + (⟨0, 0, upper_arm_length⟩ : Vec3))
    else
      let direction := (1 / distance_to_forearm) • shoulder_to_forearm
      some (shoulder_pos + upper_arm_length • direction)
  | _, _ => none

/-- The `UpperBodySkeleton` record from `calc_body.py`: every joint starts as
`None` and is filled in by `reconstruct_skeleton`. -/
structure UpperBodySkeleton where
  head : Option Vec3
  neck : Option Vec3
  upper_spine : Option Vec3
  mid_spine : Option Vec3
  lower_spine : Option Vec3
  left_shoulder : Option Vec3
  right_shoulder : Option Vec3
  left_elbow : Option Vec3
  right_elbow : Option Vec3
  left_wrist : Option Vec3
  right_wrist : Option Vec3

/-- `reconstruct_skeleton(head_pos, head_quat, left_wrist, right_wrist,
left_forearm, right_forearm, body_model)` from `calc_body.py`. -/
noncomputable def reconstruct_skeleton (head_pos : Vec3) (head_quat : QuatR)
    (left_wrist right_wrist left_forearm right_forearm : Option Vec3)
    (body_model : AnthropometricModel) : UpperBodySkeleton :=
  let neck := estimate_neck_position head_pos head_quat body_model
  let spine := estimate_spine_positions neck head_quat body_model
  let shoulders := estimate_shoulder_positions spine.1 head_quat body_model
  { head := some head_pos
    neck := some neck
    upper_spine := some spine.1
    mid_spine := some spine.2.1
    lower_spine := some spine.2.2
    left_shoulder := some shoulders.1
    right_shoulder := some shoulders.2
    left_elbow := estimate_elbow_position shoulders.1 left_forearm left_wrist
      body_model.upper_arm_length
    right_elbow := estimate_elbow_position shoulders.2 right_forearm right_wrist
      body_model.upper_arm_length
    left_wrist := left_wrist
    right_wrist := right_wrist }

/-! ## AngleCalculator (`calculate_and_join_skeleton_data.py`) -/

/-- `AngleCalculator.calculate_angle_3_points(p1, p2, p3)`: angle at `p2` in
degrees, with the cosine clamped to `[-1, 1]` (`np.clip`) before `arccos`. -/
noncomputable def calculate_angle_3_points (p1 p2 p3 : Vec3) : ℝ :=
  let v1 := p1 - p2
  let v2 := p3 - p2
  let cos_angle := dot3 v1 v2 / (norm3 v1 * norm3 v2)
  let clamped := min 1 (max (-1) cos_angle)
  Real.arccos clamped * 180 / Real.pi

/-- The joints dictionary consumed by `calculate_skeleton_angles`, restricted
to the keys that function reads; a key absent from the Python dict is `none`. -/
structure JointSet where
  left_shoulder : Option Vec3
  left_elbow : Option Vec3
  left_wrist : Option Vec3
  right_shoulder : Option Vec3
  right_elbow : Option Vec3
  right_wrist : Option Vec3
  upper_spine : Option Vec3
  neck : Option Vec3
  mid_spine : Option Vec3
  lower_spine : Option Vec3

/-- Bundle three optional joints; `some` exactly when all three are present
(the `all(k in joints for k in [...])` guard). -/
def opt3 : Option Vec3 → Option Vec3 → Option Vec3 → Option (Vec3 × Vec3 × Vec3)
  | some a, some b, some c => some (a, b, c)
  | _, _, _ => none

/-- The five angle computations of `calculate_skeleton_angles`, in source
order, each with its guard condition resolved to an optional argument
triple. -/
def stepsOf (j : JointSet) : List (String × Option (Vec3 × Vec3 × Vec3)) :=
  [("left_elbow_angle", opt3 j.left_shoulder j.left_elbow j.left_wrist),
   ("right_elbow_angle", opt3 j.right_shoulder j.right_elbow j.right_wrist),
   ("left_shoulder_angle", opt3 j.upper_spine j.left_shoulder j.left_elbow),
   ("right_shoulder_angle", opt3 j.upper_spine j.right_shoulder j.right_elbow),
   ("spine_bend_angle", opt3 j.neck j.mid_spine j.lower_spine)]

/-- Run the angle steps under the single `try/except` of
`calculate_skeleton_angles`: a raised exception (`Except.error`) abandons all
remaining steps, returning only the angles accumulated before it. The angle
routine is abstracted as a possibly-raising function `f` to model Python
runtime exceptions. -/
def runSteps (f : Vec3 → Vec3 → Vec3 → Except Unit ℝ) :
    List (String × Option (Vec3 × Vec3 × Vec3)) → List (String × ℝ)
  | [] => []
  | (_, none) :: rest => runSteps f rest
  | (name, some triple) :: rest =>
    match f triple.1 triple.2.1 triple.2.2 with
    | .error _ => []
    | .ok a => (name, a) :: runSteps f rest

/-- `AngleCalculator.calculate_skeleton_angles(joints)` with the angle routine
abstracted as `f`. -/
def calculate_skeleton_angles (f : Vec3 → Vec3 → Vec3 → Except Unit ℝ)
    (j : JointSet) : List (String × ℝ) :=
  runSteps f (stepsOf j)

/-- The never-raising version of an angle routine, agreeing with `f` wherever
`f` succeeds. -/
def totalOk (f : Vec3 → Vec3 → Vec3 → Except Unit ℝ) :
    Vec3 → Vec3 → Vec3 → Except Unit ℝ :=
  fun a b c => .ok (match f a b c with | .ok v => v | .error _ => 0)

/-- Names of the angles whose three joints are present, in source order. -/
def presentAngleNames (j : JointSet) : List String :=
  (stepsOf j).filterMap fun s => s.2.map fun _ => s.1

/-! ## TemporalResampler (`interpolate_head_data` in `calc_body.py`)

The source delegates to `scipy.interpolate.interp1d(kind='cubic')` for the
three position axes and to `scipy.spatial.transform.Slerp` for orientation,
after clipping the query timestamps to the source time range.  Those two
library calls are embedded here by their documented behaviour: a cubic
interpolating spline through the samples (its second-derivative coefficients
obtained from the standard tridiagonal system; `interp1d` raises when given
fewer than 4 points), and piecewise shortest-arc quaternion SLERP driven by
`searchsorted` interval selection (`Slerp` raises on non-increasing times).
Timestamps and positions are exact rationals; quaternions are real. -/

/-- One row of the device-pose stream: `(t_mono, x, y, z, q)`. -/
structure HeadSample where
  t : ℚ
  px : ℚ
  py : ℚ
  pz : ℚ
  q : QuatR

/-- One interpolated output pose. -/
structure PoseQ where
  px : ℚ
  py : ℚ
  pz : ℚ
  ori : QuatR

/-- Hamilton product of two scalar-last quaternions, as used by scipy
rotation composition. -/
def qmul (a b : QuatR) : QuatR :=
  ⟨a.w * b.x + a.x * b.w + a.y * b.z - a.z * b.y,
   a.w * b.y - a.x * b.z + a.y * b.w + a.z * b.x,
   a.w * b.z + a.x * b.y - a.y * b.x + a.z * b.w,
   a.w * b.w - a.x * b.x - a.y * b.y - a.z * b.z⟩

/-- Quaternion conjugate (the inverse of a unit quaternion). -/
def qconj (a : QuatR) : QuatR := ⟨-a.x, -a.y, -a.z, a.w⟩

/-- Quaternion negation (same rotation, opposite sign). -/
def qneg (a : QuatR) : QuatR := ⟨-a.x, -a.y, -a.z, -a.w⟩

/-- 4D dot product of two quaternions. -/
def dot4 (a b : QuatR) : ℝ := a.x * b.x + a.y * b.y + a.z * b.z + a.w * b.w

/-- `Rotation.from_quat` normalizes its input quaternion to unit norm. -/
noncomputable def normalizeQuat (q : QuatR) : QuatR :=
  let n := Real.sqrt (normSq4 q)
  ⟨q.x / n, q.y / n, q.z / n, q.w / n⟩

/-- One cubic piece of the interpolating spline on `[p0.1, p1.1]`, written in
the standard second-derivative (`M`) form; it takes the value `p0.2` at the
left knot and `p1.2` at the right knot for any `M0, M1`. -/
def splinePiece (p0 p1 : ℚ × ℚ) (M0 M1 : ℚ) (t : ℚ) : ℚ :=
  let h := p1.1 - p0.1
  let b := (p1.2 - p0.2) / h - h * (2 * M0 + M1) / 6
  p0.2 + b * (t - p0.1) + (M0 / 2) * (t - p0.1) ^ 2
    + ((M1 - M0) / (6 * h)) * (t - p0.1) ^ 3

/-- Evaluate the piecewise cubic: advance to the interval containing `t`
(the last interval catches everything beyond it, matching the clipped query
range) and evaluate its piece. -/
def evalCubic : List (ℚ × ℚ) → List ℚ → ℚ → ℚ
  | p0 :: p1 :: rest, Ms, t =>
    if t < p1.1 ∨ rest = [] then splinePiece p0 p1 (Ms.getD 0 0) (Ms.getD 1 0) t
    else evalCubic (p1 :: rest) Ms.tail t
  | [p], _, _ => p.2
  | [], _, _ => 0

/-- Interior rows `(sub, diag, sup, rhs)` of the tridiagonal system for the
spline second derivatives. -/
def interiorRows : List (ℚ × ℚ) → List (ℚ × ℚ × ℚ × ℚ)
  | (t0, y0) :: (t1, y1) :: (t2, y2) :: rest =>
    let h0 := t1 - t0
    let h1 := t2 - t1
    (h0, 2 * (h0 + h1), h1, 6 * ((y2 - y1) / h1 - (y1 - y0) / h0))
      :: interiorRows ((t1, y1) :: (t2, y2) :: rest)
  | _ => []

/-- Forward elimination sweep of the Thomas algorithm. -/
def sweep : ℚ → ℚ → List (ℚ × ℚ × ℚ × ℚ) → List (ℚ × ℚ)
  | _, _, [] => []
  | cp, dp, (sub, diag, sup, rhs) :: rows =>
    let denom := diag - sub * cp
    let c := sup / denom
    let d := (rhs - sub * dp) / denom
    (c, d) :: sweep c d rows

/-- Back substitution of the Thomas algorithm (input reversed). -/
def backsub : List (ℚ × ℚ) → ℚ → List ℚ
  | [], _ => []
  | (c, d) :: rest, xnext =>
    let xi := d - c * xnext
    xi :: backsub rest xi

/-- Second-derivative (`M`) values of the cubic interpolating spline through
`pts`, with natural boundary conditions, via the Thomas algorithm. -/
def naturalM (pts : List (ℚ × ℚ)) : List ℚ :=
  (0 : ℚ) :: (backsub (sweep 0 0 (interiorRows pts)).reverse 0).reverse ++ [(0 : ℚ)]

/-- One SLERP bracket evaluation, as scipy computes it: the interval's delta
rotation `conj(q0) * q1` is canonicalized to nonnegative scalar part
(`as_rotvec` returns the shortest-arc rotation vector), scaled by the time
fraction in exp/log form, and composed back onto `q0`. -/
noncomputable def slerpPiece (s0 s1 : ℚ × QuatR) (t : ℚ) : QuatR :=
  let frac : ℝ := ((t : ℝ) - (s0.1 : ℝ)) / ((s1.1 : ℝ) - (s0.1 : ℝ))
  let d := qmul (qconj s0.2) s1.2
  let dc := if d.w < 0 then qneg d else d
  let half := Real.arccos dc.w
  let nv := Real.sqrt (dc.x ^ 2 + dc.y ^ 2 + dc.z ^ 2)
  qmul s0.2
    ⟨Real.sin (frac * half) * (dc.x / nv), Real.sin (frac * half) * (dc.y / nv),
     Real.sin (frac * half) * (dc.z / nv), Real.cos (frac * half)⟩

/-- Piecewise SLERP: scipy's `searchsorted`-based interval selection sends a
query equal to an interior knot to the interval ending at that knot (fraction
1), and the first knot to the first interval (fraction 0). -/
noncomputable def slerpEval : List (ℚ × QuatR) → ℚ → QuatR
  | [s0, s1], t => slerpPiece s0 s1 t
  | s0 :: s1 :: s2 :: rest, t =>
    if t ≤ s1.1 then slerpPiece s0 s1 t
    else slerpEval (s1 :: s2 :: rest) t
  | [s], _ => s.2
  | [], _ => ⟨0, 0, 0, 1⟩

/-- `np.min` over a nonempty array. -/
def listMin : List ℚ → ℚ
  | [] => 0
  | x :: xs => xs.foldl min x

/-- `np.max` over a nonempty array. -/
def listMax : List ℚ → ℚ
  | [] => 0
  | x :: xs => xs.foldl max x

/-- `np.clip(t, lo, hi)`. -/
def clipQ (lo hi t : ℚ) : ℚ := min (max t lo) hi

/-- Failure modes of the resampler: `interp1d(kind='cubic')` raising on
fewer than 4 samples, and the strictly-increasing timestamp requirement
(violated either in spline construction or in `Slerp`). -/
inductive InterpError where
  | insufficientSamples
  | nonMonotonicTimestamps
deriving DecidableEq

/-- The interpolated pose at one (already clipped inside) query timestamp:
each position axis through the cubic spline, orientation through SLERP, with
the query clipped to the source time range first. -/
noncomputable def poseAt (samples : List HeadSample) (tq : ℚ) : PoseQ :=
  let ts := samples.map (·.t)
  let tc := clipQ (listMin ts) (listMax ts) tq
  { px := evalCubic (samples.map fun s => (s.t, s.px))
      (naturalM (samples.map fun s => (s.t, s.px))) tc
    py := evalCubic (samples.map fun s => (s.t, s.py))
      (naturalM (samples.map fun s => (s.t, s.py))) tc
    pz := evalCubic (samples.map fun s => (s.t, s.pz))
      (naturalM (samples.map fun s => (s.t, s.pz))) tc
    ori := slerpEval (samples.map fun s => (s.t, normalizeQuat s.q)) tc }

/-- `interpolate_head_data(device_data, hand_timestamps)`: resample the head
pose stream onto the hand timestamp grid, one pose per query timestamp. -/
noncomputable def interpolate_head_data (samples : List HeadSample)
    (hand_timestamps : List ℚ) : Except InterpError (List PoseQ) :=
  if samples.length < 4 then .error .insufficientSamples
  else if ¬ (samples.map (·.t)).Chain' (· < ·) then .error .nonMonotonicTimestamps
  else .ok (hand_timestamps.map (poseAt samples))

/-! ## StreamAligner (`load_and_organize_data` in `calc_body.py`) -/

/-- Which hand a landmark row belongs to. -/
inductive Chirality where
  | left
  | right
deriving DecidableEq

/-- One row of the hand-landmark stream; the landmark payload columns are
abstracted as an opaque value. -/
structure HandRow where
  t : ℚ
  chirality : Chirality
  data : ℕ

/-- The per-side timestamp dictionary built by the row loop (`row` assigned
into `right_hand_dict` / `left_hand_dict`; a later row at the same timestamp
overwrites an earlier one). -/
def side_lookup (rows : List HandRow) (c : Chirality) (t : ℚ) : Option ℕ :=
  ((rows.filter fun r => r.chirality = c ∧ r.t = t).getLast?).map (·.data)

/-- `sorted(hand_data['t_mono'].unique())`. -/
def all_timestamps (rows : List HandRow) : List ℚ :=
  List.insertionSort (· ≤ ·) (rows.map (·.t)).dedup

/-- One organized output record: the timestamp plus optional per-side data. -/
structure AlignedFrame where
  t : ℚ
  right : Option ℕ
  left : Option ℕ

/-- The organizing loop of `load_and_organize_data`: one record per unique
timestamp, with each side's data attached when that side has a row at exactly
that timestamp (CSV loading and console printing omitted). -/
def load_and_organize_data (hand_data : List HandRow) : List AlignedFrame :=
  (all_timestamps hand_data).map fun t =>
    { t := t
      right := side_lookup hand_data .right t
      left := side_lookup hand_data .left t }

/-- A head-pose stream of two samples with strictly increasing timestamps. -/
def twoSampleStream : List HeadSample :=
  [⟨0, 0, 0, 0, ⟨0, 0, 0, 1⟩⟩, ⟨1, 1, 1, 1, ⟨0, 0, 0, 1⟩⟩]

/-- A head-pose stream of four samples, strictly increasing timestamps,
identity orientations. -/
def fourSampleStream : List HeadSample :=
  [⟨0, 0, 0, 0, ⟨0, 0, 0, 1⟩⟩, ⟨1, 1, 2, 3, ⟨0, 0, 0, 1⟩⟩,
   ⟨2, 4, 5, 6, ⟨0, 0, 0, 1⟩⟩, ⟨3, 7, 8, 9, ⟨0, 0, 0, 1⟩⟩]

/-- A four-sample stream whose second quaternion is the sign flip of the
first (same rotation, opposite quaternion sign). -/
def signFlipStream : List HeadSample :=
  [⟨0, 0, 0, 0, ⟨0, 0, 0, 1⟩⟩, ⟨1, 0, 0, 0, ⟨0, 0, 0, -1⟩⟩,
   ⟨2, 0, 0, 0, ⟨0, 0, 0, -1⟩⟩, ⟨3, 0, 0, 0, ⟨0, 0, 0, -1⟩⟩]

/-- The union-of-timestamps scenario: left rows at timestamps 1 and 2, right
rows at timestamps 2 and 3. -/
def unionScenarioRows : List HandRow :=
  [⟨1, .left, 10⟩, ⟨2, .left, 11⟩, ⟨2, .right, 20⟩, ⟨3, .right, 21⟩]

/-- A joints dictionary with every key present, at pairwise distinct
positions. -/
def fullJointSet : JointSet :=
  { left_shoulder := some ⟨1, 0, 0⟩
    left_elbow := some ⟨2, 0, 0⟩
    left_wrist := some ⟨3, 0, 0⟩
    right_shoulder := some ⟨4, 0, 0⟩
    right_elbow := some ⟨5, 0, 0⟩
    right_wrist := some ⟨6, 0, 0⟩
    upper_spine := some ⟨7, 0, 0⟩
    neck := some ⟨8, 0, 0⟩
    mid_spine := some ⟨9, 0, 0⟩
    lower_spine := some ⟨10, 0, 0⟩ }

/-- An angle routine that raises exactly on the left-elbow triple of
`fullJointSet` (first argument the left shoulder) and succeeds everywhere
else. -/
noncomputable def failingAngleFn : Vec3 → Vec3 → Vec3 → Except Unit ℝ :=
  fun a _ _ => if a.x = 1 then .error () else .ok 0

-- ======================================================================
-- Helper lemmas (shared)
-- ======================================================================

theorem Vec3.add_def (a b : Vec3) : a + b = ⟨a.x + b.x, a.y + b.y, a.z + b.z⟩ := rfl

theorem Vec3.sub_def (a b : Vec3) : a - b = ⟨a.x - b.x, a.y - b.y, a.z - b.z⟩ := rfl

theorem Vec3.neg_def (a : Vec3) : -a = ⟨-a.x, -a.y, -a.z⟩ := rfl

theorem Vec3.smul_def (c : ℝ) (a : Vec3) : c • a = ⟨c * a.x, c * a.y, c * a.z⟩ := rfl

theorem normSq3_nonneg (a : Vec3) : 0 ≤ normSq3 a := by
  unfold normSq3; positivity

theorem norm3_nonneg (a : Vec3) : 0 ≤ norm3 a := Real.sqrt_nonneg _

theorem norm3_mul_self (a : Vec3) : norm3 a * norm3 a = normSq3 a :=
  Real.mul_self_sqrt (normSq3_nonneg a)

theorem normSq3_eq_zero_iff (a : Vec3) : normSq3 a = 0 ↔ a = ⟨0, 0, 0⟩ := by
  unfold normSq3
  constructor
  · intro h
    have hx : a.x ^ 2 = 0 := by nlinarith [sq_nonneg a.x, sq_nonneg a.y, sq_nonneg a.z]
    have hy : a.y ^ 2 = 0 := by nlinarith [sq_nonneg a.x, sq_nonneg a.y, sq_nonneg a.z]
    have hz : a.z ^ 2 = 0 := by nlinarith [sq_nonneg a.x, sq_nonneg a.y, sq_nonneg a.z]
    have := pow_eq_zero_iff (n := 2) (by norm_num) |>.mp hx
    have := pow_eq_zero_iff (n := 2) (by norm_num) |>.mp hy
    have := pow_eq_zero_iff (n := 2) (by norm_num) |>.mp hz
    ext <;> simp_all
  · intro h; subst h; norm_num

theorem norm3_eq_zero_iff (a : Vec3) : norm3 a = 0 ↔ a = ⟨0, 0, 0⟩ := by
  unfold norm3
  rw [Real.sqrt_eq_zero (normSq3_nonneg a)]
  exact normSq3_eq_zero_iff a

theorem norm3_pos_of_ne (a : Vec3) (h : a ≠ ⟨0, 0, 0⟩) : 0 < norm3 a := by
  rcases lt_or_eq_of_le (norm3_nonneg a) with h' | h'
  · exact h'
  · exact absurd ((norm3_eq_zero_iff a).mp h'.symm) h

theorem normSq3_smul (c : ℝ) (a : Vec3) : normSq3 (c • a) = c ^ 2 * normSq3 a := by
  simp only [Vec3.smul_def, normSq3]; ring

theorem norm3_smul (c : ℝ) (a : Vec3) : norm3 (c • a) = |c| * norm3 a := by
  unfold norm3
  rw [normSq3_smul, Real.sqrt_mul (sq_nonneg c), Real.sqrt_sq_eq_abs]

theorem normSq3_neg (a : Vec3) : normSq3 (-a) = normSq3 a := by
  simp only [Vec3.neg_def, normSq3]; ring

theorem norm3_neg (a : Vec3) : norm3 (-a) = norm3 a := by
  unfold norm3; rw [normSq3_neg]

theorem dot3_self (v : Vec3) : dot3 v v = normSq3 v := by
  simp only [dot3, normSq3]; ring

theorem dot3_neg_right (a b : Vec3) : dot3 a (-b) = -(dot3 a b) := by
  simp only [dot3, Vec3.neg_def]; ring

theorem vec3_sub_add_cancel (a u : Vec3) : a - (a + u) = -u := by
  ext <;> simp [Vec3.sub_def, Vec3.add_def, Vec3.neg_def]

theorem vec3_add_sub_cancel (a u : Vec3) : (a + u) - a = u := by
  ext <;> simp [Vec3.sub_def, Vec3.add_def]

theorem vec3_smul_smul (c d : ℝ) (v : Vec3) : c • (d • v) = (c * d) • v := by
  ext <;> simp [Vec3.smul_def] <;> ring

theorem vec3_one_smul (v : Vec3) : (1 : ℝ) • v = v := by
  ext <;> simp [Vec3.smul_def]

theorem vec3_sub_eq_zero_iff (a b : Vec3) : a - b = ⟨0, 0, 0⟩ ↔ a = b := by
  constructor
  · intro h
    have hx := congrArg Vec3.x h
    have hy := congrArg Vec3.y h
    have hz := congrArg Vec3.z h
    simp [Vec3.sub_def] at hx hy hz
    ext <;> simp [sub_eq_zero] at * <;> assumption
  · intro h; subst h; ext <;> simp [Vec3.sub_def]

theorem normalize3_of_normSq_one (v : Vec3) (h : normSq3 v = 1) : normalize3 v = v := by
  unfold normalize3 norm3
  rw [h, Real.sqrt_one]
  norm_num [vec3_one_smul]

theorem elbow_dist_eq (shoulder forearm wrist : Vec3) (L : ℝ) (hL : 0 ≤ L) :
    (estimate_elbow_position shoulder (some forearm) (some wrist) L).map
      (fun e => dist3 shoulder e) = some L := by
  rw [show estimate_elbow_position shoulder (some forearm) (some wrist) L =
      (if norm3 (forearm - shoulder) < 1e-6 then
        some (shoulder + (⟨0, 0, L⟩ : Vec3))
      else
        some (shoulder + L • ((1 / norm3 (forearm - shoulder)) • (forearm - shoulder))))
    from rfl]
  by_cases hlt : norm3 (forearm - shoulder) < 1e-6
  · rw [if_pos hlt]
    simp only [Option.map_some']
    congr 1
    unfold dist3
    rw [vec3_sub_add_cancel]
    unfold norm3
    rw [show normSq3 (-(⟨0, 0, L⟩ : Vec3)) = L ^ 2 by simp [normSq3, Vec3.neg_def]]
    rw [Real.sqrt_sq_eq_abs, abs_of_nonneg hL]
  · rw [if_neg hlt]
    push_neg at hlt
    have hn : (0 : ℝ) < norm3 (forearm - shoulder) := lt_of_lt_of_le (by norm_num) hlt
    simp only [Option.map_some']
    congr 1
    unfold dist3
    rw [vec3_sub_add_cancel, vec3_smul_smul, norm3_neg, norm3_smul]
    rw [abs_of_nonneg (by positivity)]
    field_simp

/-- Claim C1: whenever an elbow is computed (both the forearm and wrist
landmarks present), the distance from the shoulder to the computed elbow
equals `model.upper_arm_length`, for every input forearm position — including
those hitting the epsilon fallback branch. -/
theorem C1_elbow_distance (shoulder forearm wrist : Vec3) (height_m : ℝ)
    (hh : 0 ≤ height_m) :
    (estimate_elbow_position shoulder (some forearm) (some wrist)
        (mkAnthropometricModel height_m).upper_arm_length).map
      (fun e => dist3 shoulder e)
      = some (mkAnthropometricModel height_m).upper_arm_length := by
  apply elbow_dist_eq
  show (0 : ℝ) ≤ 0.18 * height_m
  linarith

theorem C1_elbow_distance_witness :
    (estimate_elbow_position ⟨0, 0, 0⟩ (some ⟨1, 2, 3⟩) (some ⟨4, 4, 4⟩)
        (mkAnthropometricModel 1.75).upper_arm_length).map
      (fun e => dist3 ⟨0, 0, 0⟩ e)
      = some (mkAnthropometricModel 1.75).upper_arm_length :=
  C1_elbow_distance ⟨0, 0, 0⟩ ⟨1, 2, 3⟩ ⟨4, 4, 4⟩ 1.75 (by norm_num)

theorem estimate_elbow_none (s : Vec3) (f w : Option Vec3) (L : ℝ)
    (h : f = none ∨ w = none) : estimate_elbow_position s f w L = none := by
  rcases h with h | h
  · subst h; cases w <;> rfl
  · subst h; cases f <;> rfl

/-- Claim C2 (amended): if a side's forearm or wrist landmark is absent, the
reconstructed skeleton has no elbow for that side, while that side's wrist is
passed through unchanged (present exactly when the wrist landmark is
present); head, neck, the three spine joints and both shoulders are always
populated. -/
theorem C2_missing_side_amended (head_pos : Vec3) (head_quat : QuatR)
    (lw rw lf rf : Option Vec3) (bm : AnthropometricModel) :
    ((lf = none ∨ lw = none) →
      (reconstruct_skeleton head_pos head_quat lw rw lf rf bm).left_elbow = none)
    ∧ ((rf = none ∨ rw = none) →
      (reconstruct_skeleton head_pos head_quat lw rw lf rf bm).right_elbow = none)
    ∧ (reconstruct_skeleton head_pos head_quat lw rw lf rf bm).left_wrist = lw
    ∧ (reconstruct_skeleton head_pos head_quat lw rw lf rf bm).right_wrist = rw
    ∧ (reconstruct_skeleton head_pos head_quat lw rw lf rf bm).head = some head_pos
    ∧ (reconstruct_skeleton head_pos head_quat lw rw lf rf bm).neck.isSome = true
    ∧ (reconstruct_skeleton head_pos head_quat lw rw lf rf bm).upper_spine.isSome = true
    ∧ (reconstruct_skeleton head_pos head_quat lw rw lf rf bm).mid_spine.isSome = true
    ∧ (reconstruct_skeleton head_pos head_quat lw rw lf rf bm).lower_spine.isSome = true
    ∧ (reconstruct_skeleton head_pos head_quat lw rw lf rf bm).left_shoulder.isSome = true
    ∧ (reconstruct_skeleton head_pos head_quat lw rw lf rf bm).right_shoulder.isSome = true := by
  refine ⟨fun h => estimate_elbow_none _ _ _ _ h,
    fun h => estimate_elbow_none _ _ _ _ h, rfl, rfl, rfl, rfl, rfl, rfl, rfl, rfl, rfl⟩

/-- Claim C2 counterexample: with the left forearm landmark absent but the
left wrist landmark present, the claim demands that the frame have no left
wrist; the code passes the wrist through, so the frame does have one. -/
theorem C2_missing_side_counterexample :
    (reconstruct_skeleton ⟨0, 0, 0⟩ ⟨0, 0, 0, 1⟩ (some ⟨1, 1, 1⟩) none none none
        (mkAnthropometricModel 1)).left_elbow = none
    ∧ (reconstruct_skeleton ⟨0, 0, 0⟩ ⟨0, 0, 0, 1⟩ (some ⟨1, 1, 1⟩) none none none
        (mkAnthropometricModel 1)).left_wrist = some ⟨1, 1, 1⟩ :=
  ⟨rfl, rfl⟩

theorem C2_missing_side_witness :
    ((none = (none : Option Vec3) ∨ some (⟨2, 2, 2⟩ : Vec3) = none) →
      (reconstruct_skeleton ⟨0, 0, 0⟩ ⟨0, 0, 0, 1⟩ (some ⟨2, 2, 2⟩) (some ⟨3, 3, 3⟩)
          none (some ⟨4, 4, 4⟩) (mkAnthropometricModel 1.75)).left_elbow = none)
    ∧ ((some (⟨4, 4, 4⟩ : Vec3) = none ∨ some (⟨3, 3, 3⟩ : Vec3) = none) →
      (reconstruct_skeleton ⟨0, 0, 0⟩ ⟨0, 0, 0, 1⟩ (some ⟨2, 2, 2⟩) (some ⟨3, 3, 3⟩)
          none (some ⟨4, 4, 4⟩) (mkAnthropometricModel 1.75)).right_elbow = none)
    ∧ (reconstruct_skeleton ⟨0, 0, 0⟩ ⟨0, 0, 0, 1⟩ (some ⟨2, 2, 2⟩) (some ⟨3, 3, 3⟩)
        none (some ⟨4, 4, 4⟩) (mkAnthropometricModel 1.75)).left_wrist = some ⟨2, 2, 2⟩
    ∧ (reconstruct_skeleton ⟨0, 0, 0⟩ ⟨0, 0, 0, 1⟩ (some ⟨2, 2, 2⟩) (some ⟨3, 3, 3⟩)
        none (some ⟨4, 4, 4⟩) (mkAnthropometricModel 1.75)).right_wrist = some ⟨3, 3, 3⟩
    ∧ (reconstruct_skeleton ⟨0, 0, 0⟩ ⟨0, 0, 0, 1⟩ (some ⟨2, 2, 2⟩) (some ⟨3, 3, 3⟩)
        none (some ⟨4, 4, 4⟩) (mkAnthropometricModel 1.75)).head = some ⟨0, 0, 0⟩
    ∧ (reconstruct_skeleton ⟨0, 0, 0⟩ ⟨0, 0, 0, 1⟩ (some ⟨2, 2, 2⟩) (some ⟨3, 3, 3⟩)
        none (some ⟨4, 4, 4⟩) (mkAnthropometricModel 1.75)).neck.isSome = true
    ∧ (reconstruct_skeleton ⟨0, 0, 0⟩ ⟨0, 0, 0, 1⟩ (some ⟨2, 2, 2⟩) (some ⟨3, 3, 3⟩)
        none (some ⟨4, 4, 4⟩) (mkAnthropometricModel 1.75)).upper_spine.isSome = true
    ∧ (reconstruct_skeleton ⟨0, 0, 0⟩ ⟨0, 0, 0, 1⟩ (some ⟨2, 2, 2⟩) (some ⟨3, 3, 3⟩)
        none (some ⟨4, 4, 4⟩) (mkAnthropometricModel 1.75)).mid_spine.isSome = true
    ∧ (reconstruct_skeleton ⟨0, 0, 0⟩ ⟨0, 0, 0, 1⟩ (some ⟨2, 2, 2⟩) (some ⟨3, 3, 3⟩)
        none (some ⟨4, 4, 4⟩) (mkAnthropometricModel 1.75)).lower_spine.isSome = true
    ∧ (reconstruct_skeleton ⟨0, 0, 0⟩ ⟨0, 0, 0, 1⟩ (some ⟨2, 2, 2⟩) (some ⟨3, 3, 3⟩)
        none (some ⟨4, 4, 4⟩) (mkAnthropometricModel 1.75)).left_shoulder.isSome = true
    ∧ (reconstruct_skeleton ⟨0, 0, 0⟩ ⟨0, 0, 0, 1⟩ (some ⟨2, 2, 2⟩) (some ⟨3, 3, 3⟩)
        none (some ⟨4, 4, 4⟩) (mkAnthropometricModel 1.75)).right_shoulder.isSome = true :=
  C2_missing_side_amended ⟨0, 0, 0⟩ ⟨0, 0, 0, 1⟩ (some ⟨2, 2, 2⟩) (some ⟨3, 3, 3⟩)
    none (some ⟨4, 4, 4⟩) (mkAnthropometricModel 1.75)

theorem dot3_smul_smul (c e : ℝ) (v w : Vec3) :
    dot3 (c • v) (e • w) = (c * e) * dot3 v w := by
  simp only [dot3, Vec3.smul_def]; ring

theorem deg_arccos_nonneg (c : ℝ) : 0 ≤ Real.arccos c * 180 / Real.pi :=
  div_nonneg (mul_nonneg (Real.arccos_nonneg c) (by norm_num)) Real.pi_pos.le

theorem deg_arccos_le_180 (c : ℝ) : Real.arccos c * 180 / Real.pi ≤ 180 := by
  have h := Real.arccos_le_pi c
  have hpi := Real.pi_pos
  rw [div_le_iff₀ hpi]
  nlinarith

theorem angle_range (p1 v p2 : Vec3) :
    0 ≤ calculate_angle_3_points p1 v p2 ∧ calculate_angle_3_points p1 v p2 ≤ 180 := by
  simp only [calculate_angle_3_points]
  exact ⟨deg_arccos_nonneg _, deg_arccos_le_180 _⟩

theorem angle_self_eq_zero (p v : Vec3) (h : p ≠ v) :
    calculate_angle_3_points p v p = 0 := by
  have hne : p - v ≠ ⟨0, 0, 0⟩ := fun hz => h ((vec3_sub_eq_zero_iff p v).mp hz)
  have hpos : 0 < normSq3 (p - v) := by
    have h1 := norm3_pos_of_ne _ hne
    have h2 := norm3_mul_self (p - v)
    nlinarith
  have hc : dot3 (p - v) (p - v) / (norm3 (p - v) * norm3 (p - v)) = 1 := by
    rw [dot3_self, norm3_mul_self]
    exact div_self (ne_of_gt hpos)
  simp only [calculate_angle_3_points]
  rw [hc, show min (1 : ℝ) (max (-1) 1) = 1 by norm_num, Real.arccos_one]
  ring

theorem angle_opposite_eq_180 (p1 v p2 : Vec3) (h1 : norm3 (p1 - v) = 1)
    (h2 : p2 - v = -(p1 - v)) : calculate_angle_3_points p1 v p2 = 180 := by
  have hsq : normSq3 (p1 - v) = 1 := by rw [← norm3_mul_self, h1]; ring
  simp only [calculate_angle_3_points]
  rw [h2, dot3_neg_right, dot3_self, hsq, norm3_neg, h1]
  rw [show -(1 : ℝ) / (1 * 1) = -1 by norm_num,
    show min (1 : ℝ) (max (-1) (-1)) = -1 by norm_num, Real.arccos_neg_one]
  field_simp

/-- Claim C7: for points with `p1 ≠ vertex` and `p2 ≠ vertex`, the angle at
the vertex lies in `[0, 180]` degrees; it is `0` when `p1 = p2` and `180`
when the two vertex-relative vectors are opposite unit vectors. -/
theorem C7_angle_at_properties :
    (∀ p1 v p2 : Vec3, p1 ≠ v → p2 ≠ v →
      0 ≤ calculate_angle_3_points p1 v p2 ∧ calculate_angle_3_points p1 v p2 ≤ 180)
    ∧ (∀ p v : Vec3, p ≠ v → calculate_angle_3_points p v p = 0)
    ∧ (∀ p1 v p2 : Vec3, norm3 (p1 - v) = 1 → p2 - v = -(p1 - v) →
      calculate_angle_3_points p1 v p2 = 180) :=
  ⟨fun p1 v p2 _ _ => angle_range p1 v p2,
   fun p v h => angle_self_eq_zero p v h,
   fun p1 v p2 h1 h2 => angle_opposite_eq_180 p1 v p2 h1 h2⟩

theorem C7_angle_at_properties_witness :
    (0 ≤ calculate_angle_3_points ⟨1, 0, 0⟩ ⟨0, 0, 0⟩ ⟨0, 1, 0⟩
      ∧ calculate_angle_3_points ⟨1, 0, 0⟩ ⟨0, 0, 0⟩ ⟨0, 1, 0⟩ ≤ 180)
    ∧ calculate_angle_3_points ⟨1, 0, 0⟩ ⟨0, 0, 0⟩ ⟨1, 0, 0⟩ = 0
    ∧ calculate_angle_3_points ⟨1, 0, 0⟩ ⟨0, 0, 0⟩ ⟨-1, 0, 0⟩ = 180 := by
  refine ⟨C7_angle_at_properties.1 ⟨1, 0, 0⟩ ⟨0, 0, 0⟩ ⟨0, 1, 0⟩ ?_ ?_,
    C7_angle_at_properties.2.1 ⟨1, 0, 0⟩ ⟨0, 0, 0⟩ ?_,
    C7_angle_at_properties.2.2 ⟨1, 0, 0⟩ ⟨0, 0, 0⟩ ⟨-1, 0, 0⟩ ?_ ?_⟩
  · intro h
    have := congrArg Vec3.x h
    norm_num at this
  · intro h
    have := congrArg Vec3.y h
    norm_num at this
  · intro h
    have := congrArg Vec3.x h
    norm_num at this
  · show Real.sqrt (normSq3 _) = 1
    rw [show normSq3 ((⟨1, 0, 0⟩ : Vec3) - ⟨0, 0, 0⟩) = 1 by
      simp [normSq3, Vec3.sub_def]]
    exact Real.sqrt_one
  · ext <;> simp [Vec3.sub_def, Vec3.neg_def]

theorem normSq3_rot_c0 (q : QuatR) (hq : normSq4 q = 1) :
    normSq3 (quaternion_to_rotation_matrix q).c0 = 1 := by
  simp only [quaternion_to_rotation_matrix, normSq3]
  simp only [normSq4] at hq
  linear_combination (4 * (q.y ^ 2 + q.z ^ 2)) * hq

theorem normSq3_rot_c1 (q : QuatR) (hq : normSq4 q = 1) :
    normSq3 (quaternion_to_rotation_matrix q).c1 = 1 := by
  simp only [quaternion_to_rotation_matrix, normSq3]
  simp only [normSq4] at hq
  linear_combination (4 * (q.x ^ 2 + q.z ^ 2)) * hq

theorem normSq3_down (q : QuatR) (hq : normSq4 q = 1) :
    normSq3 (get_down_vector q) = 1 := by
  unfold get_down_vector
  rw [normalize3_of_normSq_one _ (by rw [normSq3_neg]; exact normSq3_rot_c1 q hq),
    normSq3_neg]
  exact normSq3_rot_c1 q hq

theorem shoulder_pair_geometry (u r : Vec3) (c : ℝ) (hrn : norm3 r = 1) (hc : 0 ≤ c) :
    ((1 : ℝ) / 2) • ((u - c • r) + (u + c • r)) = u
    ∧ norm3 ((u - c • r) - (u + c • r)) = 2 * c := by
  constructor
  · ext <;> simp [Vec3.smul_def, Vec3.add_def, Vec3.sub_def] <;> ring
  · have hsub : (u - c • r) - (u + c • r) = (-(2 * c)) • r := by
      ext <;> simp [Vec3.smul_def, Vec3.add_def, Vec3.sub_def] <;> ring
    rw [hsub, norm3_smul, hrn, mul_one, abs_neg, abs_of_nonneg (by linarith)]

/-- Claim C9: the reconstructed shoulders are symmetric about the upper spine
point along the head's local right axis — their midpoint is `upper_spine` —
and their separation is exactly `model.shoulder_width` (unit head
quaternion, nonnegative height). -/
theorem C9_shoulder_symmetry (q : QuatR) (upper_spine : Vec3) (height_m : ℝ)
    (hq : normSq4 q = 1) (hh : 0 ≤ height_m) :
    ((1 : ℝ) / 2) •
        ((estimate_shoulder_positions upper_spine q (mkAnthropometricModel height_m)).1
          + (estimate_shoulder_positions upper_spine q (mkAnthropometricModel height_m)).2)
        = upper_spine
    ∧ dist3 (estimate_shoulder_positions upper_spine q (mkAnthropometricModel height_m)).1
        (estimate_shoulder_positions upper_spine q (mkAnthropometricModel height_m)).2
      = (mkAnthropometricModel height_m).shoulder_width := by
  have hrn : norm3 (normalize3 (quaternion_to_rotation_matrix q).c0) = 1 := by
    rw [normalize3_of_normSq_one _ (normSq3_rot_c0 q hq)]
    unfold norm3
    rw [normSq3_rot_c0 q hq]
    exact Real.sqrt_one
  have hc : (0 : ℝ) ≤ (mkAnthropometricModel height_m).shoulder_width / 2 := by
    simp only [mkAnthropometricModel]
    linarith
  have h := shoulder_pair_geometry upper_spine
    (normalize3 (quaternion_to_rotation_matrix q).c0)
    ((mkAnthropometricModel height_m).shoulder_width / 2) hrn hc
  refine ⟨h.1, ?_⟩
  unfold dist3
  simp only [estimate_shoulder_positions]
  rw [h.2]
  ring

theorem C9_shoulder_symmetry_witness :
    ((1 : ℝ) / 2) •
        ((estimate_shoulder_positions ⟨1, 2, 3⟩ ⟨0, 0, 0, 1⟩ (mkAnthropometricModel 1.75)).1
          + (estimate_shoulder_positions ⟨1, 2, 3⟩ ⟨0, 0, 0, 1⟩ (mkAnthropometricModel 1.75)).2)
        = ⟨1, 2, 3⟩
    ∧ dist3 (estimate_shoulder_positions ⟨1, 2, 3⟩ ⟨0, 0, 0, 1⟩ (mkAnthropometricModel 1.75)).1
        (estimate_shoulder_positions ⟨1, 2, 3⟩ ⟨0, 0, 0, 1⟩ (mkAnthropometricModel 1.75)).2
      = (mkAnthropometricModel 1.75).shoulder_width :=
  C9_shoulder_symmetry ⟨0, 0, 0, 1⟩ ⟨1, 2, 3⟩ 1.75 (by norm_num [normSq4]) (by norm_num)

theorem angle_at_opposite_smul (vtx d : Vec3) (a b : ℝ) (hd : normSq3 d = 1)
    (ha : 0 < a) (hb : 0 < b) :
    calculate_angle_3_points (vtx + (-a) • d) vtx (vtx + b • d) = 180 := by
  have hdn : norm3 d = 1 := by
    unfold norm3; rw [hd]; exact Real.sqrt_one
  simp only [calculate_angle_3_points]
  rw [vec3_add_sub_cancel, vec3_add_sub_cancel, dot3_smul_smul, dot3_self, hd,
    norm3_smul, norm3_smul, hdn, abs_neg, abs_of_pos ha, abs_of_pos hb]
  rw [show (-a) * b * 1 / (a * 1 * (b * 1)) = -1 by field_simp,
    show min (1 : ℝ) (max (-1) (-1)) = -1 by norm_num, Real.arccos_neg_one]
  field_simp

/-- Claim C10: the spine bend angle is identically 180 degrees — neck,
mid-spine and lower-spine always lie on the single frame-down ray with
mid-spine strictly between the other two, so in exact arithmetic the angle
computed at the mid-spine is always straight, carrying no information about
actual spine bend (unit head quaternion, positive height). -/
theorem C10_spine_bend_always_180 (head_pos : Vec3) (q : QuatR) (height_m : ℝ)
    (hq : normSq4 q = 1) (hh : 0 < height_m) :
    calculate_angle_3_points
      (estimate_neck_position head_pos q (mkAnthropometricModel height_m))
      (estimate_spine_positions
        (estimate_neck_position head_pos q (mkAnthropometricModel height_m)) q
        (mkAnthropometricModel height_m)).2.1
      (estimate_spine_positions
        (estimate_neck_position head_pos q (mkAnthropometricModel height_m)) q
        (mkAnthropometricModel height_m)).2.2 = 180 := by
  have hdsq : normSq3 (get_down_vector q) = 1 := normSq3_down q hq
  have hmid : (estimate_spine_positions
      (estimate_neck_position head_pos q (mkAnthropometricModel height_m)) q
      (mkAnthropometricModel height_m)).2.1
      = estimate_neck_position head_pos q (mkAnthropometricModel height_m)
        + (0.2 * height_m) • get_down_vector q := by
    simp only [estimate_spine_positions, mkAnthropometricModel]
    ext <;> simp [Vec3.add_def, Vec3.smul_def] <;> ring
  have hlow : (estimate_spine_positions
      (estimate_neck_position head_pos q (mkAnthropometricModel height_m)) q
      (mkAnthropometricModel height_m)).2.2
      = (estimate_neck_position head_pos q (mkAnthropometricModel height_m)
          + (0.2 * height_m) • get_down_vector q)
        + (0.1 * height_m) • get_down_vector q := by
    simp only [estimate_spine_positions, mkAnthropometricModel]
    ext <;> simp [Vec3.add_def, Vec3.smul_def] <;> ring
  rw [hmid, hlow]
  have key := angle_at_opposite_smul
    (estimate_neck_position head_pos q (mkAnthropometricModel height_m)
      + (0.2 * height_m) • get_down_vector q)
    (get_down_vector q) (0.2 * height_m) (0.1 * height_m) hdsq
    (by linarith) (by linarith)
  have harg : (estimate_neck_position head_pos q (mkAnthropometricModel height_m)
        + (0.2 * height_m) • get_down_vector q)
      + (-(0.2 * height_m)) • get_down_vector q
      = estimate_neck_position head_pos q (mkAnthropometricModel height_m) := by
    ext <;> simp [Vec3.add_def, Vec3.smul_def]
  rw [harg] at key
  exact key

theorem C10_spine_bend_always_180_witness :
    calculate_angle_3_points
      (estimate_neck_position ⟨0, 0, 0⟩ ⟨0, 0, 0, 1⟩ (mkAnthropometricModel 1.75))
      (estimate_spine_positions
        (estimate_neck_position ⟨0, 0, 0⟩ ⟨0, 0, 0, 1⟩ (mkAnthropometricModel 1.75))
        ⟨0, 0, 0, 1⟩ (mkAnthropometricModel 1.75)).2.1
      (estimate_spine_positions
        (estimate_neck_position ⟨0, 0, 0⟩ ⟨0, 0, 0, 1⟩ (mkAnthropometricModel 1.75))
        ⟨0, 0, 0, 1⟩ (mkAnthropometricModel 1.75)).2.2 = 180 :=
  C10_spine_bend_always_180 ⟨0, 0, 0⟩ ⟨0, 0, 0, 1⟩ 1.75 (by norm_num [normSq4])
    (by norm_num)

theorem runSteps_names_of_ok (f : Vec3 → Vec3 → Vec3 → Except Unit ℝ)
    (h : ∀ a b c, ∃ v, f a b c = .ok v) :
    ∀ steps, (runSteps f steps).map Prod.fst
      = steps.filterMap (fun s => s.2.map (fun _ => s.1))
  | [] => rfl
  | (name, none) :: rest => by
    simp only [runSteps, List.filterMap_cons, Option.map_none']
    exact runSteps_names_of_ok f h rest
  | (name, some triple) :: rest => by
    obtain ⟨v, hv⟩ := h triple.1 triple.2.1 triple.2.2
    simp only [runSteps, hv, List.filterMap_cons, Option.map_some', List.map_cons]
    exact congrArg (name :: ·) (runSteps_names_of_ok f h rest)

theorem runSteps_totalOk_extends (f : Vec3 → Vec3 → Vec3 → Except Unit ℝ) :
    ∀ steps, ∃ tail, runSteps (totalOk f) steps = runSteps f steps ++ tail
  | [] => ⟨[], rfl⟩
  | (name, none) :: rest => by
    obtain ⟨tail, ht⟩ := runSteps_totalOk_extends f rest
    exact ⟨tail, by simp only [runSteps]; exact ht⟩
  | (name, some triple) :: rest => by
    cases hft : f triple.1 triple.2.1 triple.2.2 with
    | ok v =>
      obtain ⟨tail, ht⟩ := runSteps_totalOk_extends f rest
      refine ⟨tail, ?_⟩
      simp only [runSteps, totalOk, hft]
      exact congrArg ((name, v) :: ·) ht
    | error e =>
      refine ⟨(name, 0) :: runSteps (totalOk f) rest, ?_⟩
      simp only [runSteps, totalOk, hft, List.nil_append]

/-- Claim C8 (amended): an exception while computing one angle is caught —
the frame and batch continue — but since one `try/except` wraps all five
angle computations, the returned angle set is only the prefix computed
before the failure: when the routine never raises, the result names exactly
the angles whose three joints are present, and in general the no-failure
result extends the actual result, whose remaining angles (the failing one
and all later ones) are dropped. -/
theorem C8_angle_failure_amended (f : Vec3 → Vec3 → Vec3 → Except Unit ℝ)
    (j : JointSet) :
    ((∀ a b c, ∃ v, f a b c = .ok v) →
      (calculate_skeleton_angles f j).map Prod.fst = presentAngleNames j)
    ∧ (∃ tail, calculate_skeleton_angles (totalOk f) j
        = calculate_skeleton_angles f j ++ tail) :=
  ⟨fun h => runSteps_names_of_ok f h (stepsOf j),
   runSteps_totalOk_extends f (stepsOf j)⟩

theorem C8_angle_failure_witness :
    ((calculate_skeleton_angles (fun _ _ _ => .ok 42) fullJointSet).map Prod.fst
      = presentAngleNames fullJointSet)
    ∧ (∃ tail, calculate_skeleton_angles (totalOk (fun _ _ _ => .ok 42)) fullJointSet
        = calculate_skeleton_angles (fun _ _ _ => .ok 42) fullJointSet ++ tail) :=
  ⟨(C8_angle_failure_amended (fun _ _ _ => .ok 42) fullJointSet).1
      (fun _ _ _ => ⟨42, rfl⟩),
   (C8_angle_failure_amended (fun _ _ _ => .ok 42) fullJointSet).2⟩

/-- Claim C8 counterexample: with every joint present and an angle routine
that fails only on the left-elbow computation (the first in source order),
the whole result set is empty — in particular `spine_bend_angle` is omitted
even though its three joints are present and its own computation succeeds,
contradicting the claim that only the single failing angle is omitted. -/
theorem C8_angle_failure_counterexample :
    calculate_skeleton_angles failingAngleFn fullJointSet = []
    ∧ failingAngleFn ⟨8, 0, 0⟩ ⟨9, 0, 0⟩ ⟨10, 0, 0⟩ = .ok 0 := by
  constructor
  · simp [calculate_skeleton_angles, stepsOf, fullJointSet, opt3, runSteps,
      failingAngleFn]
  · norm_num [failingAngleFn]

theorem option_isSome_map (o : Option HandRow) (f : HandRow → ℕ) :
    (o.map f).isSome = o.isSome := by
  cases o <;> rfl

theorem side_lookup_isSome (rows : List HandRow) (c : Chirality) (t : ℚ) :
    (side_lookup rows c t).isSome = true
      ↔ ∃ row ∈ rows, row.t = t ∧ row.chirality = c := by
  unfold side_lookup
  rw [option_isSome_map, List.getLast?_isSome]
  constructor
  · intro h
    obtain ⟨x, hx⟩ := List.exists_mem_of_ne_nil _ h
    have hm := List.mem_filter.mp hx
    have hp := hm.2
    simp only [decide_eq_true_eq] at hp
    exact ⟨x, hm.1, hp.2, hp.1⟩
  · rintro ⟨row, hrow, ht, hc⟩
    exact List.ne_nil_of_mem (List.mem_filter.mpr ⟨hrow, by simp [ht, hc]⟩)

theorem mem_all_timestamps (rows : List HandRow) (q : ℚ) :
    q ∈ all_timestamps rows ↔ ∃ row ∈ rows, row.t = q := by
  unfold all_timestamps
  rw [List.Perm.mem_iff (List.perm_insertionSort _ _), List.mem_dedup]
  exact List.mem_map

/-- Claim C6: the stream aligner emits one record per timestamp in the
sorted union of all distinct timestamps across both sides (output timestamps
strictly increasing, covering exactly the input timestamps), and a side's
data is present in a record if and only if that side reported a row at
exactly that timestamp. -/
theorem C6_stream_aligner (rows : List HandRow) :
    ((load_and_organize_data rows).map (fun r => r.t)).Pairwise (· < ·)
    ∧ (∀ q : ℚ, (∃ r ∈ load_and_organize_data rows, r.t = q)
        ↔ ∃ row ∈ rows, row.t = q)
    ∧ ∀ r ∈ load_and_organize_data rows,
        ((r.right.isSome = true)
          ↔ ∃ row ∈ rows, row.t = r.t ∧ row.chirality = Chirality.right)
        ∧ ((r.left.isSome = true)
          ↔ ∃ row ∈ rows, row.t = r.t ∧ row.chirality = Chirality.left) := by
  have hmapt : (load_and_organize_data rows).map (fun r => r.t) = all_timestamps rows := by
    unfold load_and_organize_data
    rw [List.map_map]
    rw [show ((fun (r : AlignedFrame) => r.t) ∘ fun t =>
        ({ t := t, right := side_lookup rows .right t,
           left := side_lookup rows .left t } : AlignedFrame)) = fun t => t from rfl]
    exact List.map_id' _
  refine ⟨?_, ?_, ?_⟩
  · rw [hmapt]
    have hs : (all_timestamps rows).Pairwise (· ≤ ·) :=
      List.sorted_insertionSort (· ≤ ·) _
    have hnd : (all_timestamps rows).Pairwise (· ≠ ·) := by
      unfold all_timestamps
      exact ((List.perm_insertionSort (· ≤ ·) _).nodup_iff).mpr (List.nodup_dedup _)
    exact (hs.and hnd).imp fun h => lt_of_le_of_ne h.1 h.2
  · intro q
    constructor
    · rintro ⟨r, hr, rfl⟩
      refine (mem_all_timestamps rows r.t).mp ?_
      rw [← hmapt]
      exact List.mem_map_of_mem _ hr
    · intro h
      have hq : q ∈ all_timestamps rows := (mem_all_timestamps rows q).mpr h
      exact ⟨⟨q, side_lookup rows .right q, side_lookup rows .left q⟩,
        List.mem_map_of_mem _ hq, rfl⟩
  · intro r hr
    unfold load_and_organize_data at hr
    obtain ⟨t, _, rfl⟩ := List.mem_map.mp hr
    exact ⟨side_lookup_isSome rows .right t, side_lookup_isSome rows .left t⟩

theorem C6_stream_aligner_witness :
    ((load_and_organize_data unionScenarioRows).map (fun r => r.t)).Pairwise (· < ·)
    ∧ (load_and_organize_data unionScenarioRows).map (fun r => r.t) = [1, 2, 3]
    ∧ (load_and_organize_data unionScenarioRows).map
        (fun r => (r.left.isSome, r.right.isSome))
      = [(true, false), (true, true), (false, true)] :=
  ⟨(C6_stream_aligner unionScenarioRows).1, by decide, by decide⟩

/-- Claim C3 (amended): the resampler fails with `InsufficientSamples`
exactly when the source stream has fewer than 4 samples (scipy's
`interp1d(kind='cubic')` needs at least 4 points, so the threshold is 4, not
the claimed 2), fails with `NonMonotonicTimestamps` exactly when it has at
least 4 samples whose timestamps are not strictly increasing, and succeeds
with one pose per query timestamp otherwise. -/
theorem C3_resampler_errors_amended (samples : List HeadSample) (queries : List ℚ) :
    (interpolate_head_data samples queries = .error .insufficientSamples
      ↔ samples.length < 4)
    ∧ (interpolate_head_data samples queries = .error .nonMonotonicTimestamps
      ↔ 4 ≤ samples.length ∧ ¬ (samples.map (·.t)).Chain' (· < ·))
    ∧ (∀ ps, interpolate_head_data samples queries = .ok ps →
        ps.length = queries.length)
    ∧ (4 ≤ samples.length → (samples.map (·.t)).Chain' (· < ·) →
        ∃ ps, interpolate_head_data samples queries = .ok ps
          ∧ ps.length = queries.length) := by
  unfold interpolate_head_data
  by_cases h4 : samples.length < 4
  · rw [if_pos h4]
    refine ⟨by simp [h4], ?_, by simp, fun hge _ => absurd h4 (not_lt.mpr hge)⟩
    constructor
    · intro h
      exact absurd h (by simp)
    · rintro ⟨hge, _⟩
      exact absurd h4 (not_lt.mpr hge)
  · rw [if_neg h4]
    by_cases hc : (samples.map (·.t)).Chain' (· < ·)
    · rw [if_neg (not_not_intro hc)]
      refine ⟨by simp [h4], ?_, ?_, ?_⟩
      · constructor
        · intro h
          exact absurd h (by simp)
        · rintro ⟨_, hnc⟩
          exact absurd hc hnc
      · intro ps hps
        have : queries.map (poseAt samples) = ps := by
          injection hps
        rw [← this, List.length_map]
      · intro _ _
        exact ⟨queries.map (poseAt samples), rfl, List.length_map _ _⟩
    · rw [if_pos hc]
      refine ⟨by simp [h4], ?_, by simp, fun _ hinc => absurd hinc hc⟩
      simp [not_lt.mp h4, hc]

/-- Claim C3 counterexample: a two-sample stream with strictly increasing
timestamps makes the resampler fail (scipy's cubic `interp1d` needs four
points), where the claim asserts it must succeed and that
`InsufficientSamples` occurs only below 2 samples. -/
theorem C3_resampler_errors_counterexample :
    interpolate_head_data twoSampleStream [(1 : ℚ) / 2]
      = .error .insufficientSamples
    ∧ 2 ≤ twoSampleStream.length
    ∧ (twoSampleStream.map (·.t)).Chain' (· < ·) :=
  ⟨rfl, by decide, by norm_num [twoSampleStream, List.chain'_cons]⟩

theorem C3_resampler_errors_witness :
    ∃ ps, interpolate_head_data fourSampleStream [0, 3/2, 5] = .ok ps
      ∧ ps.length = 3 :=
  (C3_resampler_errors_amended fourSampleStream [0, 3/2, 5]).2.2.2
    (by decide) (by norm_num [fourSampleStream, List.chain'_cons])

theorem foldl_min_le (xs : List ℚ) :
    ∀ init, xs.foldl min init ≤ init ∧ ∀ a ∈ xs, xs.foldl min init ≤ a := by
  induction xs with
  | nil =>
    intro init
    exact ⟨le_refl _, by simp⟩
  | cons x xs ih =>
    intro init
    constructor
    · exact le_trans (ih (min init x)).1 (min_le_left _ _)
    · intro a ha
      rcases List.mem_cons.mp ha with rfl | ha
      · exact le_trans (ih (min init a)).1 (min_le_right _ _)
      · exact (ih (min init x)).2 a ha

theorem foldl_max_le (xs : List ℚ) :
    ∀ init, init ≤ xs.foldl max init ∧ ∀ a ∈ xs, a ≤ xs.foldl max init := by
  induction xs with
  | nil =>
    intro init
    exact ⟨le_refl _, by simp⟩
  | cons x xs ih =>
    intro init
    constructor
    · exact le_trans (le_max_left _ _) (ih (max init x)).1
    · intro a ha
      rcases List.mem_cons.mp ha with rfl | ha
      · exact le_trans (le_max_right _ _) (ih (max init a)).1
      · exact (ih (max init x)).2 a ha

theorem listMin_le (l : List ℚ) (a : ℚ) (h : a ∈ l) : listMin l ≤ a := by
  cases l with
  | nil => exact absurd h (List.not_mem_nil a)
  | cons x xs =>
    rcases List.mem_cons.mp h with rfl | h
    · exact (foldl_min_le xs a).1
    · exact (foldl_min_le xs x).2 a h

theorem le_listMax (l : List ℚ) (a : ℚ) (h : a ∈ l) : a ≤ listMax l := by
  cases l with
  | nil => exact absurd h (List.not_mem_nil a)
  | cons x xs =>
    rcases List.mem_cons.mp h with rfl | h
    · exact (foldl_max_le xs a).1
    · exact (foldl_max_le xs x).2 a h

theorem foldl_min_mem (xs : List ℚ) :
    ∀ init, xs.foldl min init = init ∨ xs.foldl min init ∈ xs := by
  induction xs with
  | nil => exact fun init => Or.inl rfl
  | cons x xs ih =>
    intro init
    rcases ih (min init x) with h | h
    · rcases min_choice init x with hm | hm
      · exact Or.inl (h.trans hm)
      · exact Or.inr (List.mem_cons.mpr (Or.inl (h.trans hm)))
    · exact Or.inr (List.mem_cons_of_mem x h)

theorem foldl_max_mem (xs : List ℚ) :
    ∀ init, xs.foldl max init = init ∨ xs.foldl max init ∈ xs := by
  induction xs with
  | nil => exact fun init => Or.inl rfl
  | cons x xs ih =>
    intro init
    rcases ih (max init x) with h | h
    · rcases max_choice init x with hm | hm
      · exact Or.inl (h.trans hm)
      · exact Or.inr (List.mem_cons.mpr (Or.inl (h.trans hm)))
    · exact Or.inr (List.mem_cons_of_mem x h)

theorem listMin_mem (l : List ℚ) (h : l ≠ []) : listMin l ∈ l := by
  cases l with
  | nil => exact absurd rfl h
  | cons x xs =>
    rcases foldl_min_mem xs x with h1 | h1
    · exact List.mem_cons.mpr (Or.inl h1)
    · exact List.mem_cons_of_mem x h1

theorem listMax_mem (l : List ℚ) (h : l ≠ []) : listMax l ∈ l := by
  cases l with
  | nil => exact absurd rfl h
  | cons x xs =>
    rcases foldl_max_mem xs x with h1 | h1
    · exact List.mem_cons.mpr (Or.inl h1)
    · exact List.mem_cons_of_mem x h1

theorem clipQ_of_gt (lo hi t : ℚ) (hlh : lo ≤ hi) (h : hi < t) :
    clipQ lo hi t = hi := by
  unfold clipQ
  rw [max_eq_left (le_of_lt (lt_of_le_of_lt hlh h))]
  exact min_eq_right (le_of_lt h)

theorem clipQ_of_lt (lo hi t : ℚ) (hlh : lo ≤ hi) (h : t < lo) :
    clipQ lo hi t = lo := by
  unfold clipQ
  rw [max_eq_right (le_of_lt h)]
  exact min_eq_left hlh

theorem clipQ_id (lo hi t : ℚ) (h1 : lo ≤ t) (h2 : t ≤ hi) :
    clipQ lo hi t = t := by
  unfold clipQ
  rw [max_eq_left h1]
  exact min_eq_left h2

theorem samples_map_ne_nil (samples : List HeadSample) (h4 : 4 ≤ samples.length) :
    samples.map (·.t) ≠ [] := by
  intro h
  have hlen := congrArg List.length h
  rw [List.length_map, List.length_nil] at hlen
  omega

/-- Claim C4: query timestamps are clipped to the source time range before
interpolation, so a query beyond either boundary returns exactly the pose
returned for the boundary timestamp itself (which is a source timestamp) —
neither position nor orientation is extrapolated past the source range. -/
theorem C4_boundary_clamp (samples : List HeadSample) (h4 : 4 ≤ samples.length)
    (hinc : (samples.map (·.t)).Chain' (· < ·)) (t : ℚ) :
    interpolate_head_data samples [t] = .ok [poseAt samples t]
    ∧ (listMax (samples.map (·.t)) < t →
        poseAt samples t = poseAt samples (listMax (samples.map (·.t)))
        ∧ listMax (samples.map (·.t)) ∈ samples.map (·.t))
    ∧ (t < listMin (samples.map (·.t)) →
        poseAt samples t = poseAt samples (listMin (samples.map (·.t)))
        ∧ listMin (samples.map (·.t)) ∈ samples.map (·.t)) := by
  have hne := samples_map_ne_nil samples h4
  have hlh : listMin (samples.map (·.t)) ≤ listMax (samples.map (·.t)) :=
    listMin_le _ _ (listMax_mem _ hne)
  refine ⟨?_, fun h => ⟨?_, listMax_mem _ hne⟩, fun h => ⟨?_, listMin_mem _ hne⟩⟩
  · unfold interpolate_head_data
    rw [if_neg (not_lt.mpr h4), if_neg (not_not_intro hinc)]
    rfl
  · have h1 : clipQ (listMin (samples.map (·.t))) (listMax (samples.map (·.t))) t
        = listMax (samples.map (·.t)) := clipQ_of_gt _ _ _ hlh h
    have h2 : clipQ (listMin (samples.map (·.t))) (listMax (samples.map (·.t)))
        (listMax (samples.map (·.t)))
        = listMax (samples.map (·.t)) := clipQ_id _ _ _ hlh (le_refl _)
    simp only [poseAt]
    rw [h1, h2]
  · have h1 : clipQ (listMin (samples.map (·.t))) (listMax (samples.map (·.t))) t
        = listMin (samples.map (·.t)) := clipQ_of_lt _ _ _ hlh h
    have h2 : clipQ (listMin (samples.map (·.t))) (listMax (samples.map (·.t)))
        (listMin (samples.map (·.t)))
        = listMin (samples.map (·.t)) := clipQ_id _ _ _ (le_refl _) hlh
    simp only [poseAt]
    rw [h1, h2]

theorem C4_boundary_clamp_witness :
    interpolate_head_data fourSampleStream [99] = .ok [poseAt fourSampleStream 99]
    ∧ poseAt fourSampleStream 99
        = poseAt fourSampleStream (listMax (fourSampleStream.map (·.t)))
    ∧ listMax (fourSampleStream.map (·.t)) ∈ fourSampleStream.map (·.t) :=
  ⟨(C4_boundary_clamp fourSampleStream (by decide)
      (by norm_num [fourSampleStream, List.chain'_cons]) 99).1,
   ((C4_boundary_clamp fourSampleStream (by decide)
      (by norm_num [fourSampleStream, List.chain'_cons]) 99).2.1 (by decide)).1,
   ((C4_boundary_clamp fourSampleStream (by decide)
      (by norm_num [fourSampleStream, List.chain'_cons]) 99).2.1 (by decide)).2⟩

theorem splinePiece_left (p0 p1 : ℚ × ℚ) (M0 M1 : ℚ) :
    splinePiece p0 p1 M0 M1 p0.1 = p0.2 := by
  simp [splinePiece]

theorem splinePiece_right (p0 p1 : ℚ × ℚ) (M0 M1 : ℚ) (hne : p0.1 ≠ p1.1) :
    splinePiece p0 p1 M0 M1 p1.1 = p1.2 := by
  have h : p1.1 - p0.1 ≠ 0 := sub_ne_zero.mpr (Ne.symm hne)
  simp only [splinePiece]
  field_simp
  ring

theorem chain_head_lt {β : Type} (a : ℚ × β) (l : List (ℚ × β))
    (h : (a :: l).Chain' (fun u v => u.1 < v.1)) (j : ℕ) (hj : j < l.length) :
    a.1 < (l.get ⟨j, hj⟩).1 := by
  induction l generalizing a j with
  | nil => exact absurd hj (Nat.not_lt_zero j)
  | cons b l ih =>
    have hab : a.1 < b.1 := (List.chain'_cons.mp h).1
    cases j with
    | zero => exact hab
    | succ j =>
      exact lt_trans hab (ih b (List.chain'_cons.mp h).2 j (Nat.lt_of_succ_lt_succ hj))

theorem evalCubic_node (pts : List (ℚ × ℚ)) :
    ∀ (Ms : List ℚ) (j : ℕ) (hj : j < pts.length),
    pts.Chain' (fun u v => u.1 < v.1) →
    evalCubic pts Ms (pts.get ⟨j, hj⟩).1 = (pts.get ⟨j, hj⟩).2 := by
  induction pts with
  | nil =>
    intro Ms j hj _
    exact absurd hj (Nat.not_lt_zero j)
  | cons p0 tail ih =>
    intro Ms j hj hch
    cases tail with
    | nil =>
      have hj0 : j = 0 := Nat.lt_one_iff.mp hj
      subst hj0
      rfl
    | cons p1 rest =>
      have h01 : p0.1 < p1.1 := (List.chain'_cons.mp hch).1
      have hchTail : (p1 :: rest).Chain' (fun u v => u.1 < v.1) :=
        (List.chain'_cons.mp hch).2
      rw [show evalCubic (p0 :: p1 :: rest) Ms =
          fun t => if t < p1.1 ∨ rest = [] then
            splinePiece p0 p1 (Ms.getD 0 0) (Ms.getD 1 0) t
          else evalCubic (p1 :: rest) Ms.tail t from rfl]
      cases j with
      | zero =>
        show (if p0.1 < p1.1 ∨ rest = [] then
            splinePiece p0 p1 (Ms.getD 0 0) (Ms.getD 1 0) p0.1
          else evalCubic (p1 :: rest) Ms.tail p0.1) = p0.2
        rw [if_pos (Or.inl h01)]
        exact splinePiece_left p0 p1 _ _
      | succ j =>
        have hj' : j < (p1 :: rest).length := Nat.lt_of_succ_lt_succ hj
        have hget : ((p0 :: p1 :: rest).get ⟨j + 1, hj⟩)
            = ((p1 :: rest).get ⟨j, hj'⟩) := rfl
        rw [hget]
        have hle : p1.1 ≤ ((p1 :: rest).get ⟨j, hj'⟩).1 := by
          cases j with
          | zero => exact le_refl _
          | succ k =>
            exact le_of_lt (chain_head_lt p1 rest hchTail k
              (Nat.lt_of_succ_lt_succ hj'))
        cases rest with
        | nil =>
          have hj0 : j = 0 := Nat.lt_one_iff.mp hj'
          subst hj0
          show (if p1.1 < p1.1 ∨ ([] : List (ℚ × ℚ)) = [] then
              splinePiece p0 p1 (Ms.getD 0 0) (Ms.getD 1 0) p1.1
            else evalCubic [p1] Ms.tail p1.1) = p1.2
          rw [if_pos (Or.inr rfl)]
          exact splinePiece_right p0 p1 _ _ (ne_of_lt h01)
        | cons p2 rest2 =>
          have hcond : ¬ (((p1 :: p2 :: rest2).get ⟨j, hj'⟩).1 < p1.1
              ∨ (p2 :: rest2) = ([] : List (ℚ × ℚ))) := by
            rintro (hlt | hnil)
            · exact absurd hlt (not_lt.mpr hle)
            · exact List.cons_ne_nil _ _ hnil
          show (if ((p1 :: p2 :: rest2).get ⟨j, hj'⟩).1 < p1.1
                ∨ (p2 :: rest2) = ([] : List (ℚ × ℚ)) then
              splinePiece p0 p1 (Ms.getD 0 0) (Ms.getD 1 0)
                ((p1 :: p2 :: rest2).get ⟨j, hj'⟩).1
            else evalCubic (p1 :: p2 :: rest2) Ms.tail
                ((p1 :: p2 :: rest2).get ⟨j, hj'⟩).1)
            = ((p1 :: p2 :: rest2).get ⟨j, hj'⟩).2
          rw [if_neg hcond]
          exact ih Ms.tail j hj' hchTail

theorem qmul_id_right (q : QuatR) : qmul q ⟨0, 0, 0, 1⟩ = q := by
  ext <;> simp [qmul]

theorem qmul_conj_w (q0 q1 : QuatR) : (qmul (qconj q0) q1).w = dot4 q0 q1 := by
  simp only [qmul, qconj, dot4]
  ring

theorem normSq4_qconj (a : QuatR) : normSq4 (qconj a) = normSq4 a := by
  simp only [qconj, normSq4]
  ring

theorem normSq4_qmul (a b : QuatR) :
    normSq4 (qmul a b) = normSq4 a * normSq4 b := by
  simp only [qmul, normSq4]
  ring

theorem qmul_conj_cancel (q0 q1 : QuatR) (h : normSq4 q0 = 1) :
    qmul q0 (qmul (qconj q0) q1) = q1 := by
  simp only [normSq4] at h
  ext
  · simp only [qmul, qconj]
    linear_combination q1.x * h
  · simp only [qmul, qconj]
    linear_combination q1.y * h
  · simp only [qmul, qconj]
    linear_combination q1.z * h
  · simp only [qmul, qconj]
    linear_combination q1.w * h

theorem slerpPiece_left (s0 s1 : ℚ × QuatR) : slerpPiece s0 s1 s0.1 = s0.2 := by
  simp only [slerpPiece]
  rw [sub_self, zero_div, zero_mul, Real.sin_zero, Real.cos_zero]
  simp only [zero_mul]
  exact qmul_id_right s0.2

theorem slerpPiece_right (s0 s1 : ℚ × QuatR) (hne : s0.1 ≠ s1.1)
    (h0 : normSq4 s0.2 = 1) (h1 : normSq4 s1.2 = 1)
    (hdot : 0 ≤ dot4 s0.2 s1.2) :
    slerpPiece s0 s1 s1.1 = s1.2 := by
  simp only [slerpPiece]
  have hfrac : ((s1.1 : ℝ) - (s0.1 : ℝ)) / ((s1.1 : ℝ) - (s0.1 : ℝ)) = 1 := by
    apply div_self
    intro hzero
    exact hne (by exact_mod_cast (sub_eq_zero.mp hzero).symm)
  rw [hfrac, one_mul]
  set d := qmul (qconj s0.2) s1.2 with hd
  have hdw : d.w = dot4 s0.2 s1.2 := qmul_conj_w s0.2 s1.2
  have hdcond : ¬ (d.w < 0) := not_lt.mpr (hdw ▸ hdot)
  rw [if_neg hdcond]
  have hnd : normSq4 d = 1 := by
    rw [hd, normSq4_qmul, normSq4_qconj, h0, h1]
    norm_num
  have hsum : d.x ^ 2 + d.y ^ 2 + d.z ^ 2 = 1 - d.w ^ 2 := by
    simp only [normSq4] at hnd
    linarith
  have hwsq : d.w ^ 2 ≤ 1 := by
    nlinarith [sq_nonneg d.x, sq_nonneg d.y, sq_nonneg d.z]
  have hwlo : -1 ≤ d.w := by nlinarith
  have hwhi : d.w ≤ 1 := by nlinarith
  have hcos : Real.cos (Real.arccos d.w) = d.w := Real.cos_arccos hwlo hwhi
  have hsin : Real.sin (Real.arccos d.w)
      = Real.sqrt (d.x ^ 2 + d.y ^ 2 + d.z ^ 2) := by
    rw [Real.sin_arccos, ← hsum]
  by_cases hz : Real.sqrt (d.x ^ 2 + d.y ^ 2 + d.z ^ 2) = 0
  · have hsum0 : d.x ^ 2 + d.y ^ 2 + d.z ^ 2 = 0 :=
      le_antisymm (Real.sqrt_eq_zero'.mp hz) (by positivity)
    have hx0 : d.x = 0 := by
      have hsq : d.x ^ 2 = 0 :=
        le_antisymm (by nlinarith [sq_nonneg d.y, sq_nonneg d.z]) (sq_nonneg _)
      exact pow_eq_zero_iff (n := 2) (by norm_num) |>.mp hsq
    have hy0 : d.y = 0 := by
      have hsq : d.y ^ 2 = 0 :=
        le_antisymm (by nlinarith [sq_nonneg d.x, sq_nonneg d.z]) (sq_nonneg _)
      exact pow_eq_zero_iff (n := 2) (by norm_num) |>.mp hsq
    have hz0 : d.z = 0 := by
      have hsq : d.z ^ 2 = 0 :=
        le_antisymm (by nlinarith [sq_nonneg d.x, sq_nonneg d.y]) (sq_nonneg _)
      exact pow_eq_zero_iff (n := 2) (by norm_num) |>.mp hsq
    have hdw0 : 0 ≤ d.w := le_of_not_lt hdcond
    have hwsq1 : d.w ^ 2 = 1 := by linarith
    have hw1 : d.w = 1 := by
      have hfac : (d.w - 1) * (d.w + 1) = 0 := by linear_combination hwsq1
      rcases mul_eq_zero.mp hfac with hcase | hcase
      · linarith
      · linarith
    have hdid : d = ⟨0, 0, 0, 1⟩ := by
      ext <;> assumption
    rw [hsin, hz, hcos, hw1]
    simp only [zero_mul]
    rw [qmul_id_right]
    have hseq : qmul s0.2 d = s1.2 := by
      rw [hd]
      exact qmul_conj_cancel s0.2 s1.2 h0
    rw [← hseq, hdid]
    exact (qmul_id_right s0.2).symm
  · rw [hsin, hcos]
    have hcomp : ∀ u : ℝ,
        Real.sqrt (d.x ^ 2 + d.y ^ 2 + d.z ^ 2)
          * (u / Real.sqrt (d.x ^ 2 + d.y ^ 2 + d.z ^ 2)) = u := by
      intro u
      field_simp
    rw [hcomp d.x, hcomp d.y, hcomp d.z]
    rw [show (⟨d.x, d.y, d.z, d.w⟩ : QuatR) = d from rfl, hd]
    exact qmul_conj_cancel s0.2 s1.2 h0

theorem slerpEval_node (pts : List (ℚ × QuatR)) :
    ∀ (j : ℕ) (hj : j < pts.length),
    pts.Chain' (fun u v => u.1 < v.1) →
    (∀ s ∈ pts, normSq4 s.2 = 1) →
    pts.Chain' (fun u v => 0 ≤ dot4 u.2 v.2) →
    slerpEval pts (pts.get ⟨j, hj⟩).1 = (pts.get ⟨j, hj⟩).2 := by
  induction pts with
  | nil =>
    intro j hj
    exact absurd hj (Nat.not_lt_zero j)
  | cons s0 tail ih =>
    intro j hj hch hunit hdot
    cases tail with
    | nil =>
      have hj0 : j = 0 := Nat.lt_one_iff.mp hj
      subst hj0
      rfl
    | cons s1 rest =>
      have h01 : s0.1 < s1.1 := (List.chain'_cons.mp hch).1
      have hd01 : 0 ≤ dot4 s0.2 s1.2 := (List.chain'_cons.mp hdot).1
      have hu0 : normSq4 s0.2 = 1 := hunit s0 (List.mem_cons_self _ _)
      have hu1 : normSq4 s1.2 = 1 :=
        hunit s1 (List.mem_cons_of_mem _ (List.mem_cons_self _ _))
      cases j with
      | zero =>
        cases rest with
        | nil => exact slerpPiece_left s0 s1
        | cons s2 rest2 =>
          show (if s0.1 ≤ s1.1 then slerpPiece s0 s1 s0.1
            else slerpEval (s1 :: s2 :: rest2) s0.1) = s0.2
          rw [if_pos (le_of_lt h01)]
          exact slerpPiece_left s0 s1
      | succ j =>
        have hj' : j < (s1 :: rest).length := Nat.lt_of_succ_lt_succ hj
        have hget : ((s0 :: s1 :: rest).get ⟨j + 1, hj⟩)
            = ((s1 :: rest).get ⟨j, hj'⟩) := rfl
        rw [hget]
        cases j with
        | zero =>
          cases rest with
          | nil => exact slerpPiece_right s0 s1 (ne_of_lt h01) hu0 hu1 hd01
          | cons s2 rest2 =>
            show (if s1.1 ≤ s1.1 then slerpPiece s0 s1 s1.1
              else slerpEval (s1 :: s2 :: rest2) s1.1) = s1.2
            rw [if_pos (le_refl _)]
            exact slerpPiece_right s0 s1 (ne_of_lt h01) hu0 hu1 hd01
        | succ k =>
          cases rest with
          | nil =>
            exact absurd hj' (by simp)
          | cons s2 rest2 =>
            have hk : k < (s2 :: rest2).length := Nat.lt_of_succ_lt_succ hj'
            have hlt : s1.1 < (((s1 :: s2 :: rest2).get ⟨k + 1, hj'⟩)).1 :=
              chain_head_lt s1 (s2 :: rest2) (List.chain'_cons.mp hch).2 k hk
            show (if (((s1 :: s2 :: rest2).get ⟨k + 1, hj'⟩)).1 ≤ s1.1 then
                slerpPiece s0 s1 (((s1 :: s2 :: rest2).get ⟨k + 1, hj'⟩)).1
              else slerpEval (s1 :: s2 :: rest2)
                (((s1 :: s2 :: rest2).get ⟨k + 1, hj'⟩)).1)
              = ((s1 :: s2 :: rest2).get ⟨k + 1, hj'⟩).2
            rw [if_neg (not_le.mpr hlt)]
            exact ih (k + 1) hj' (List.chain'_cons.mp hch).2
              (fun s hs => hunit s (List.mem_cons_of_mem _ hs))
              (List.chain'_cons.mp hdot).2

theorem normalizeQuat_of_unit (q : QuatR) (h : normSq4 q = 1) :
    normalizeQuat q = q := by
  simp only [normalizeQuat]
  rw [h, Real.sqrt_one]
  ext <;> simp

theorem evalCubic_node_map (samples : List HeadSample) (f : HeadSample → ℚ)
    (Ms : List ℚ) (hinc : (samples.map (·.t)).Chain' (· < ·))
    (j : ℕ) (hj : j < samples.length) :
    evalCubic (samples.map fun s => (s.t, f s)) Ms (samples.get ⟨j, hj⟩).t
      = f (samples.get ⟨j, hj⟩) := by
  have hj' : j < (samples.map fun s => (s.t, f s)).length := by
    rw [List.length_map]
    exact hj
  have hch : (samples.map fun s => (s.t, f s)).Chain' (fun u v => u.1 < v.1) := by
    rw [List.chain'_map]
    exact (List.chain'_map (fun s : HeadSample => s.t)).mp hinc
  have hget : (samples.map fun s => (s.t, f s)).get ⟨j, hj'⟩
      = ((samples.get ⟨j, hj⟩).t, f (samples.get ⟨j, hj⟩)) := by
    simp [List.get_eq_getElem, List.getElem_map]
  have h := evalCubic_node (samples.map fun s => (s.t, f s)) Ms j hj' hch
  rw [hget] at h
  exact h

theorem slerpEval_node_map (samples : List HeadSample)
    (hinc : (samples.map (·.t)).Chain' (· < ·))
    (hunit : ∀ s ∈ samples, normSq4 s.q = 1)
    (hdot : samples.Chain' (fun a b => 0 ≤ dot4 a.q b.q))
    (j : ℕ) (hj : j < samples.length) :
    slerpEval (samples.map fun s => (s.t, normalizeQuat s.q))
      (samples.get ⟨j, hj⟩).t = (samples.get ⟨j, hj⟩).q := by
  have hmapeq : (samples.map fun s => (s.t, normalizeQuat s.q))
      = samples.map fun s => (s.t, s.q) :=
    List.map_congr_left fun s hs => by rw [normalizeQuat_of_unit s.q (hunit s hs)]
  rw [hmapeq]
  have hj' : j < (samples.map fun s => (s.t, s.q)).length := by
    rw [List.length_map]
    exact hj
  have hch : (samples.map fun s => (s.t, s.q)).Chain' (fun u v => u.1 < v.1) := by
    rw [List.chain'_map]
    exact (List.chain'_map (fun s : HeadSample => s.t)).mp hinc
  have hu : ∀ p ∈ samples.map fun s => (s.t, s.q), normSq4 p.2 = 1 := by
    intro p hp
    obtain ⟨s, hs, rfl⟩ := List.mem_map.mp hp
    exact hunit s hs
  have hdq : (samples.map fun s => (s.t, s.q)).Chain'
      (fun u v => 0 ≤ dot4 u.2 v.2) := by
    rw [List.chain'_map]
    exact hdot
  have hget : (samples.map fun s => (s.t, s.q)).get ⟨j, hj'⟩
      = ((samples.get ⟨j, hj⟩).t, (samples.get ⟨j, hj⟩).q) := by
    simp [List.get_eq_getElem, List.getElem_map]
  have h := slerpEval_node (samples.map fun s => (s.t, s.q)) j hj' hch hu hdq
  rw [hget] at h
  exact h

theorem poseAt_node (samples : List HeadSample)
    (hinc : (samples.map (·.t)).Chain' (· < ·))
    (hunit : ∀ s ∈ samples, normSq4 s.q = 1)
    (hdot : samples.Chain' (fun a b => 0 ≤ dot4 a.q b.q))
    (j : ℕ) (hj : j < samples.length) :
    poseAt samples (samples.get ⟨j, hj⟩).t
      = ⟨(samples.get ⟨j, hj⟩).px, (samples.get ⟨j, hj⟩).py,
         (samples.get ⟨j, hj⟩).pz, (samples.get ⟨j, hj⟩).q⟩ := by
  have hmem : (samples.get ⟨j, hj⟩).t ∈ samples.map (·.t) :=
    List.mem_map.mpr ⟨samples.get ⟨j, hj⟩, List.get_mem _ _ _, rfl⟩
  have hclip : clipQ (listMin (samples.map (·.t))) (listMax (samples.map (·.t)))
      (samples.get ⟨j, hj⟩).t = (samples.get ⟨j, hj⟩).t :=
    clipQ_id _ _ _ (listMin_le _ _ hmem) (le_listMax _ _ hmem)
  have hx : evalCubic (samples.map fun s => (s.t, s.px))
      (naturalM (samples.map fun s => (s.t, s.px))) (samples.get ⟨j, hj⟩).t
        = (samples.get ⟨j, hj⟩).px :=
    evalCubic_node_map samples (fun s => s.px) _ hinc j hj
  have hy : evalCubic (samples.map fun s => (s.t, s.py))
      (naturalM (samples.map fun s => (s.t, s.py))) (samples.get ⟨j, hj⟩).t
        = (samples.get ⟨j, hj⟩).py :=
    evalCubic_node_map samples (fun s => s.py) _ hinc j hj
  have hz : evalCubic (samples.map fun s => (s.t, s.pz))
      (naturalM (samples.map fun s => (s.t, s.pz))) (samples.get ⟨j, hj⟩).t
        = (samples.get ⟨j, hj⟩).pz :=
    evalCubic_node_map samples (fun s => s.pz) _ hinc j hj
  have ho : slerpEval (samples.map fun s => (s.t, normalizeQuat s.q))
      (samples.get ⟨j, hj⟩).t = (samples.get ⟨j, hj⟩).q :=
    slerpEval_node_map samples hinc hunit hdot j hj
  simp only [poseAt]
  rw [hclip, hx, hy, hz, ho]

/-- Claim C5 (amended): for a source stream of at least 4 samples with
strictly increasing timestamps, unit quaternions, and nonnegative dot
products between consecutive quaternions, a query at a source sample's own
timestamp returns exactly that sample's position and orientation.  (As
stated the claim fails: below 4 samples the resampler errors rather than
round-tripping, and a negative consecutive dot product makes scipy's
shortest-arc canonicalization return the sign-flipped quaternion at the
right-hand keyframe.) -/
theorem C5_keyframe_roundtrip_amended (samples : List HeadSample)
    (h4 : 4 ≤ samples.length)
    (hinc : (samples.map (·.t)).Chain' (· < ·))
    (hunit : ∀ s ∈ samples, normSq4 s.q = 1)
    (hdot : samples.Chain' (fun a b => 0 ≤ dot4 a.q b.q))
    (j : ℕ) (hj : j < samples.length) :
    interpolate_head_data samples [(samples.get ⟨j, hj⟩).t]
      = .ok [⟨(samples.get ⟨j, hj⟩).px, (samples.get ⟨j, hj⟩).py,
             (samples.get ⟨j, hj⟩).pz, (samples.get ⟨j, hj⟩).q⟩] := by
  unfold interpolate_head_data
  rw [if_neg (not_lt.mpr h4), if_neg (not_not_intro hinc)]
  rw [List.map_cons, List.map_nil]
  rw [poseAt_node samples hinc hunit hdot j hj]

theorem C5_keyframe_roundtrip_witness :
    interpolate_head_data fourSampleStream [(2 : ℚ)]
      = .ok [⟨4, 5, 6, ⟨0, 0, 0, 1⟩⟩] := by
  have h := C5_keyframe_roundtrip_amended fourSampleStream (by decide)
    (by norm_num [fourSampleStream, List.chain'_cons])
    (by
      intro s hs
      simp only [fourSampleStream, List.mem_cons, List.not_mem_nil, or_false] at hs
      rcases hs with rfl | rfl | rfl | rfl <;> norm_num [normSq4])
    (by norm_num [fourSampleStream, List.chain'_cons, dot4])
    2 (by decide)
  exact h

theorem signFlip_slerpPiece :
    slerpPiece ((0 : ℚ), (⟨0, 0, 0, 1⟩ : QuatR)) ((1 : ℚ), (⟨0, 0, 0, -1⟩ : QuatR)) 1
      = ⟨0, 0, 0, 1⟩ := by
  simp only [slerpPiece]
  rw [show qmul (qconj ⟨0, 0, 0, 1⟩) (⟨0, 0, 0, -1⟩ : QuatR) = ⟨0, 0, 0, -1⟩ from by
    ext <;> simp [qmul, qconj]]
  rw [if_pos (by norm_num : ((⟨0, 0, 0, -1⟩ : QuatR)).w < 0)]
  rw [show qneg (⟨0, 0, 0, -1⟩ : QuatR) = ⟨0, 0, 0, 1⟩ from by ext <;> simp [qneg]]
  norm_num [Real.arccos_one, Real.sqrt_zero]
  ext <;> simp [qmul]

theorem signFlip_ori : (poseAt signFlipStream 1).ori = ⟨0, 0, 0, 1⟩ := by
  have hn1 : normalizeQuat ⟨0, 0, 0, 1⟩ = ⟨0, 0, 0, 1⟩ :=
    normalizeQuat_of_unit _ (by norm_num [normSq4])
  have hn2 : normalizeQuat ⟨0, 0, 0, -1⟩ = ⟨0, 0, 0, -1⟩ :=
    normalizeQuat_of_unit _ (by norm_num [normSq4])
  have hclip : clipQ (listMin (signFlipStream.map (·.t)))
      (listMax (signFlipStream.map (·.t))) 1 = 1 := by decide
  have hmap : signFlipStream.map (fun s => (s.t, normalizeQuat s.q))
      = [((0 : ℚ), (⟨0, 0, 0, 1⟩ : QuatR)), (1, ⟨0, 0, 0, -1⟩),
         (2, ⟨0, 0, 0, -1⟩), (3, ⟨0, 0, 0, -1⟩)] := by
    simp [signFlipStream, hn1, hn2]
  show slerpEval (signFlipStream.map fun s => (s.t, normalizeQuat s.q))
      (clipQ (listMin (signFlipStream.map (·.t)))
        (listMax (signFlipStream.map (·.t))) 1) = ⟨0, 0, 0, 1⟩
  rw [hclip, hmap]
  rw [show slerpEval
      [((0 : ℚ), (⟨0, 0, 0, 1⟩ : QuatR)), (1, ⟨0, 0, 0, -1⟩),
       (2, ⟨0, 0, 0, -1⟩), (3, ⟨0, 0, 0, -1⟩)] 1
    = (if (1 : ℚ) ≤ 1 then
        slerpPiece ((0 : ℚ), (⟨0, 0, 0, 1⟩ : QuatR)) ((1 : ℚ), (⟨0, 0, 0, -1⟩ : QuatR)) 1
      else slerpEval
        [((1 : ℚ), (⟨0, 0, 0, -1⟩ : QuatR)), (2, ⟨0, 0, 0, -1⟩), (3, ⟨0, 0, 0, -1⟩)] 1)
    from rfl]
  rw [if_pos (le_refl (1 : ℚ))]
  exact signFlip_slerpPiece

/-- Claim C5 counterexample: on a valid four-sample stream whose second
quaternion is the sign flip of the first, the resampler succeeds but the
query at the second sample's own timestamp returns the opposite-sign
quaternion (the same rotation), not the sample's orientation exactly as the
claim demands. -/
theorem C5_keyframe_roundtrip_counterexample :
    interpolate_head_data signFlipStream [(1 : ℚ)]
      = .ok [poseAt signFlipStream 1]
    ∧ signFlipStream.get ⟨1, by decide⟩ = ⟨1, 0, 0, 0, ⟨0, 0, 0, -1⟩⟩
    ∧ (poseAt signFlipStream 1).ori = ⟨0, 0, 0, 1⟩
    ∧ (⟨0, 0, 0, 1⟩ : QuatR) ≠ (⟨0, 0, 0, -1⟩ : QuatR) := by
  refine ⟨?_, rfl, signFlip_ori, ?_⟩
  · unfold interpolate_head_data
    rw [if_neg (by decide : ¬ signFlipStream.length < 4),
      if_neg (not_not_intro (by norm_num [signFlipStream, List.chain'_cons]))]
    rfl
  · intro h
    have hw := congrArg QuatR.w h
    norm_num at hw
